import Mathlib

/-!
Verification of the serial command/response/telemetry protocol engine of the
desktop arm-controller application (src/desktop_app/main.py, class
ArmController).

The embedding models the wire values as a JSON syntax tree, the frame codec
as an executable renderer (after the Python call json.dumps(command) plus a
newline) and an executable parser (after json.loads), and the protocol
operations send_command, ping, the telemetry loop body and disconnect as
pure functions over explicit state.  The transport is modelled by the list
of characters it makes available to the reader within the relevant timeout
window; exceptions are modelled by option results and an explicit aborted
outcome, so a total Lean function returning a value corresponds to a Python
call that returns without raising.

Numbers are modelled as exact decimals (an integer mantissa with a base ten
scale), which matches the decimal number literals of the wire format.
-/

/-! ## Characters, whitespace, digits -/

def isJsonWs (c : Char) : Bool := c = ' ' || c = '\t' || c = '\n' || c = '\r'

/-- Whitespace skipped between JSON tokens, as in the Python json module. -/
def skipWs (s : List Char) : List Char := s.dropWhile isJsonWs

/-- The ASCII whitespace stripped by the Python method str.strip. -/
def isPySpace (c : Char) : Bool :=
  c = ' ' || c = '\t' || c = '\n' || c = '\r' || c = '\x0b' || c = '\x0c'

/-- Model of the Python method str.strip: remove leading and trailing
whitespace. -/
def strip (s : List Char) : List Char :=
  ((s.dropWhile isPySpace).reverse.dropWhile isPySpace).reverse

def isDigit (c : Char) : Bool := '0' ≤ c && c ≤ '9'

def digitChar (d : Nat) : Char := Char.ofNat (48 + d)

def charVal (c : Char) : Nat := c.toNat - 48

/-- Split a character list at the end of its leading run of decimal
digits. -/
def takeDigits : List Char → List Char × List Char
  | [] => ([], [])
  | c :: cs =>
    if isDigit c then
      let p := takeDigits cs
      (c :: p.1, p.2)
    else ([], c :: cs)

/-- Accumulate a run of decimal digit characters into a number, most
significant first. -/
def readNat (acc : Nat) (ds : List Char) : Nat :=
  ds.foldl (fun a c => 10 * a + charVal c) acc

def isHex (c : Char) : Bool :=
  isDigit c || ('a' ≤ c && c ≤ 'f') || ('A' ≤ c && c ≤ 'F')

def hexVal (c : Char) : Nat :=
  if isDigit c then c.toNat - 48
  else if 'a' ≤ c && c ≤ 'f' then c.toNat - 87
  else c.toNat - 55

/-- Little-endian decimal digits of a number; the first argument is a
recursion budget (any budget of at least the number itself is enough). -/
def natToRevDigits : Nat → Nat → List Nat
  | _, 0 => []
  | 0, _ + 1 => []
  | fuel + 1, n + 1 => ((n + 1) % 10) :: natToRevDigits fuel ((n + 1) / 10)

/-- Decimal digit characters of a number, most significant first, with no
leading zero except for the single digit of zero itself. -/
def natChars (n : Nat) : List Char :=
  if n = 0 then ['0'] else ((natToRevDigits n n).reverse.map digitChar)

def padLeft (e : Nat) (ds : List Char) : List Char :=
  List.replicate (e + 1 - ds.length) '0' ++ ds

/-- Value of a little-endian decimal digit list (proof helper). -/
def ofRevDigits : List Nat → Nat :=
  List.foldr (fun d a => d + 10 * a) 0

/-- A character list that cannot extend a decimal number literal at its
head (proof helper for the codec round trip). -/
def numStop : List Char → Bool
  | c :: _ => !(isDigit c || c = '.' || c = 'e' || c = 'E')
  | [] => true

/-- A character list that cannot extend a digit run at its head (proof
helper). -/
def digitStop : List Char → Bool
  | c :: _ => !isDigit c
  | [] => true

/-- Decimal rendering of the unsigned exact decimal n times ten to the
minus e, as the Python json module renders the corresponding number. -/
def numChars (n : Nat) (e : Nat) : List Char :=
  if e = 0 then natChars n
  else
    let ds := padLeft e (natChars n)
    ds.take (ds.length - e) ++ '.' :: ds.drop (ds.length - e)

/-! ## The JSON value tree -/

/-- JSON values as they travel on the wire.  A number is an exact decimal:
the constructor num m e denotes m times ten to the minus e. -/
inductive Json where
  | null : Json
  | bool (b : Bool) : Json
  | num (m : Int) (e : Nat) : Json
  | str (s : String) : Json
  | arr (elems : List Json) : Json
  | obj (fields : List (String × Json)) : Json

/-- Key lookup in a decoded object, matching the Python dict built by
json.loads: with a duplicated key the later binding wins. -/
def lookupField : List (String × Json) → String → Option Json
  | [], _ => none
  | (k, v) :: fs, key =>
    match lookupField fs key with
    | some w => some w
    | none => if k = key then some v else none

/-- The Python expression response.get(key): the value under a key of a
decoded object, if any. -/
def Json.getKey : Json → String → Option Json
  | .obj fs, key => lookupField fs key
  | _, _ => none

/-- The Python test isinstance(response, dict). -/
def Json.isDict : Json → Bool
  | .obj _ => true
  | _ => false

/-- The Python test comparing response.get applied to the type key with
the telemetry marker string (false when the key is absent or bound to a
non-string). -/
def Json.typeIsTelemetry (j : Json) : Bool :=
  match j.getKey "type" with
  | some (.str s) => s == "telemetry"
  | _ => false

/-! ## Frame codec: encoding (after json.dumps with default separators) -/

/-- Signed decimal rendering of the number constructor. -/
def dumpsNum (m : Int) (e : Nat) : List Char :=
  (if m < 0 then ['-'] else []) ++ numChars m.natAbs e

mutual
/-- Rendering of one JSON value, character for character as the Python
call json.dumps produces it with its default separators. -/
def dumpsV : Json → List Char
  | .num m e => dumpsNum m e
  | .str s => '"' :: s.data ++ ['"']
  | .null => 'n' :: 'u' :: 'l' :: 'l' :: []
  | .bool true => 't' :: 'r' :: 'u' :: 'e' :: []
  | .bool false => 'f' :: 'a' :: 'l' :: 's' :: 'e' :: []
  | .arr (x :: xs) => '[' :: (dumpsV x ++ dumpsItems xs) ++ [']']
  | .arr [] => '[' :: ']' :: []
  | .obj (f :: fs) => '{' :: (dumpsField f ++ dumpsFields fs) ++ ['}']
  | .obj [] => '{' :: '}' :: []

/-- Rendering of the later elements of an array, each preceded by a comma
and a space. -/
def dumpsItems : List Json → List Char
  | x :: xs => ',' :: ' ' :: dumpsV x ++ dumpsItems xs
  | [] => []

/-- Rendering of one object field: quoted key, colon, space, value. -/
def dumpsField : String × Json → List Char
  | (k, v) => '"' :: k.data ++ '"' :: ':' :: ' ' :: dumpsV v

/-- Rendering of the later fields of an object. -/
def dumpsFields : List (String × Json) → List Char
  | f :: fs => ',' :: ' ' :: dumpsField f ++ dumpsFields fs
  | [] => []
end

/-- The encoded Line of a command: json.dumps(command) plus the single
newline appended by send_command before writing. -/
def encode (command : Json) : List Char := dumpsV command ++ ['\n']

/-! ## Frame codec: decoding (after json.loads) -/

/-- Decoded character of a single-character string escape, as in the
Python json module (the unicode escape form is not modelled; a line using
it is treated as undecodable). -/
def unescapeChar (d : Char) : Option Char :=
  if d = 'n' then some '\n'
  else if d = 't' then some '\t'
  else if d = 'r' then some '\r'
  else if d = 'b' then some '\x08'
  else if d = 'f' then some '\x0c'
  else if d = '"' then some '"'
  else if d = '\\' then some '\\'
  else if d = '/' then some '/'
  else none

/-- Remainder of a JSON string after its opening quote; acc holds the
already-decoded characters in reverse.  Raw control characters are
rejected and single-character escapes are decoded, as in the Python json
module. -/
def parseStrRest (acc : List Char) : List Char → Option (String × List Char)
  | [] => none
  | c :: cs =>
    if c = '"' then some (String.mk acc.reverse, cs)
    else if c = '\\' then
      match cs with
      | [] => none
      | d :: cs2 =>
        match unescapeChar d with
        | some ch => parseStrRest (ch :: acc) cs2
        | none => none
    else if c.toNat < 0x20 then none
    else parseStrRest (c :: acc) cs

/-- Combine a parsed exponent k with the pending fraction scale e. -/
def parseExpApply (m e k : Nat) : Int × Nat :=
  if e ≤ k then (Int.ofNat (m * 10 ^ (k - e)), 0) else (Int.ofNat m, e - k)

/-- Fold an exponent suffix into an unsigned decimal (m, e); without such
a suffix the input is left untouched. -/
def parseExp (m : Nat) (e : Nat) (s : List Char) : (Int × Nat) × List Char :=
  if s.head? = some 'e' || s.head? = some 'E' then
    if s.tail.head? = some '-' then
      let p := takeDigits s.tail.tail
      if p.1 = [] then ((Int.ofNat m, e), s)
      else ((Int.ofNat m, e + readNat 0 p.1), p.2)
    else if s.tail.head? = some '+' then
      let p := takeDigits s.tail.tail
      if p.1 = [] then ((Int.ofNat m, e), s)
      else (parseExpApply m e (readNat 0 p.1), p.2)
    else
      let p := takeDigits s.tail
      if p.1 = [] then ((Int.ofNat m, e), s)
      else (parseExpApply m e (readNat 0 p.1), p.2)
  else ((Int.ofNat m, e), s)

/-- After the integer part ip of a number, parse an optional fraction and
exponent. -/
def parseFrac (ip : Nat) (s : List Char) : Option ((Int × Nat) × List Char) :=
  if s.head? = some '.' then
    let p := takeDigits s.tail
    if p.1 = [] then none
    else some (parseExp (readNat ip p.1) p.1.length p.2)
  else some (parseExp ip 0 s)

/-- Unsigned JSON number; a leading zero is followed by no further integer
digits, as the JSON grammar requires. -/
def parseUNum (s : List Char) : Option ((Int × Nat) × List Char) :=
  match s with
  | [] => none
  | c :: rest =>
    if c = '0' then parseFrac 0 rest
    else if isDigit c then
      let p := takeDigits (c :: rest)
      parseFrac (readNat 0 p.1) p.2
    else none

/-- Signed JSON number. -/
def parseNum (s : List Char) : Option ((Int × Nat) × List Char) :=
  if s.head? = some '-' then (parseUNum s.tail).map (fun p => ((-p.1.1, p.1.2), p.2))
  else parseUNum s

mutual
/-- One JSON value at the head of the input, with a recursion budget; a
budget beyond the input length never changes the result. -/
def parseValue : Nat → List Char → Option (Json × List Char)
  | 0, _ => none
  | _ + 1, [] => none
  | fuel + 1, c :: rest =>
    if c = 'n' then
      if rest.take 3 = ['u', 'l', 'l'] then some (.null, rest.drop 3) else none
    else if c = 't' then
      if rest.take 3 = ['r', 'u', 'e'] then some (.bool true, rest.drop 3)
      else none
    else if c = 'f' then
      if rest.take 4 = ['a', 'l', 's', 'e'] then some (.bool false, rest.drop 4)
      else none
    else if c = '"' then
      (parseStrRest [] rest).map (fun p => (.str p.1, p.2))
    else if c = '[' then
      let s1 := skipWs rest
      if s1.head? = some ']' then some (.arr [], s1.tail)
      else (parseItems fuel s1).map (fun p => (.arr p.1, p.2))
    else if c = '{' then
      let s1 := skipWs rest
      if s1.head? = some '}' then some (.obj [], s1.tail)
      else (parseFields fuel s1).map (fun p => (.obj p.1, p.2))
    else
      (parseNum (c :: rest)).map (fun p => (.num p.1.1 p.1.2, p.2))

/-- The comma-separated elements of a non-empty array, up to and including
the closing bracket. -/
def parseItems : Nat → List Char → Option (List Json × List Char)
  | 0, _ => none
  | fuel + 1, s =>
    match parseValue fuel s with
    | none => none
    | some (v, r) =>
      let r1 := skipWs r
      if r1.head? = some ',' then
        match parseItems fuel (skipWs r1.tail) with
        | none => none
        | some (vs, r3) => some (v :: vs, r3)
      else if r1.head? = some ']' then some ([v], r1.tail)
      else none

/-- The comma-separated fields of a non-empty object, up to and including
the closing brace. -/
def parseFields : Nat → List Char → Option (List (String × Json) × List Char)
  | 0, _ => none
  | fuel + 1, s =>
    if s.head? = some '"' then
      match parseStrRest [] s.tail with
      | none => none
      | some (k, r1) =>
        let r2 := skipWs r1
        if r2.head? = some ':' then
          match parseValue fuel (skipWs r2.tail) with
          | none => none
          | some (v, r3) =>
            let r4 := skipWs r3
            if r4.head? = some ',' then
              match parseFields fuel (skipWs r4.tail) with
              | none => none
              | some (fs, r5) => some ((k, v) :: fs, r5)
            else if r4.head? = some '}' then some ([(k, v)], r4.tail)
            else none
        else none
    else none
end

/-- Model of the Python call json.loads on one line: parse exactly one
JSON document, allowing surrounding whitespace; none models the exception
json.JSONDecodeError. -/
def loads (s : List Char) : Option Json :=
  let s1 := skipWs s
  match parseValue (s1.length + 1) s1 with
  | some (v, rest) => if skipWs rest = [] then some v else none
  | none => none

/-! ## Well-formed values (what json.dumps emits verbatim) -/

/-- A character that json.dumps copies into the output unescaped:
printable seven-bit, neither quote nor backslash. -/
def plainChar (c : Char) : Bool :=
  0x20 ≤ c.toNat && c.toNat ≤ 0x7e && c != '"' && c != '\\'

def plainString (s : String) : Bool := s.data.all plainChar

mutual
/-- Well-formed value: every string in it is rendered unescaped. -/
def wfV : Json → Bool
  | .null => true
  | .bool _ => true
  | .num _ _ => true
  | .str s => plainString s
  | .arr xs => wfItems xs
  | .obj fs => wfFields fs

def wfItems : List Json → Bool
  | [] => true
  | x :: xs => wfV x && wfItems xs

def wfFields : List (String × Json) → Bool
  | [] => true
  | f :: fs => plainString f.1 && wfV f.2 && wfFields fs
end

/-! ## The controller model -/

/-- The serial handle: only its open flag matters to the modelled code. -/
structure Serial where
  isOpen : Bool
  deriving DecidableEq

/-- The ArmController state touched by the modelled operations. -/
structure ArmController where
  serial : Option Serial
  running : Bool
  hasTelemetryThread : Bool
  deriving DecidableEq

/-- The synthetic minimal success Reply built by send_command when the
line it consumed was not a command reply. -/
def syntheticOkReply : Json :=
  Json.obj [("status", Json.str "ok"), ("message", Json.str "command sent")]

/-- The classification test of send_command, line 111 of the source: the
response is a dict, has a cmd key, and is not typed telemetry. -/
def isCommandReply (response : Json) : Bool :=
  response.isDict && (response.getKey "cmd").isSome && !response.typeIsTelemetry

/-- Characters accumulated by the reply-wait loop of send_command from the
characters the transport makes available within the two-second timeout
window: single characters are read until a newline is seen (kept, then
stripped) or the window closes. -/
def readAccum : List Char → List Char
  | [] => []
  | c :: rest => if c = '\n' then [c] else c :: readAccum rest

/-- Model of ArmController.send_command.  The first argument is the serial
handle, the last the characters the transport makes available on the read
side within the timeout window.  Returns the Python result (none for the
Python value None) paired with the characters written to the transport.
The Python function raises no exception: every branch, including a decode
failure, returns a value. -/
def send_command (serial : Option Serial) (command : Json) (avail : List Char) :
    Option Json × List Char :=
  match serial with
  | none => (none, [])
  | some ser =>
    if !ser.isOpen then (none, [])
    else
      let message := encode command
      let response_line := strip (readAccum avail)
      if response_line = [] then (none, message)
      else
        match loads response_line with
        | none => (none, message)
        | some response =>
          if isCommandReply response then (some response, message)
          else (some syntheticOkReply, message)

/-- The fixed Command written by ArmController.ping. -/
def pingCommand : Json := Json.obj [("cmd", Json.str "ping")]

/-- Model of ArmController.ping: the response is not None and has a state
key. -/
def ping (serial : Option Serial) (avail : List Char) : Bool :=
  match (send_command serial pingCommand avail).1 with
  | none => false
  | some response => (response.getKey "state").isSome

/-- Outcome of one iteration of the telemetry loop body on one line. -/
inductive TelemetryStep where
  | delivered (frame : Json)
  | skipped
  | aborted

/-- Model of the body of ArmController.read_telemetry_loop on one raw line
read from the transport.  delivered means the subscriber callback was
invoked with the decoded frame; skipped means the line was discarded and
the loop continues; aborted means an exception other than a decode error
escaped the inner handler (the Python code logs it and breaks the loop).
The only such exception in the modelled region is the attribute error
raised by data.get on a decoded non-object. -/
def read_telemetry_line (hasCallback : Bool) (raw : List Char) : TelemetryStep :=
  let line := strip raw
  if line = [] then .skipped
  else
    match loads line with
    | none => .skipped
    | some data =>
      if hasCallback then
        if data.isDict then
          if data.typeIsTelemetry && (data.getKey "joints").isSome then
            .delivered data
          else .skipped
        else .aborted
      else .skipped

/-- Model of the joints half of ArmControllerGUI.handle_telemetry, the
registered subscriber: the current angles are replaced only by a joints
array of length exactly six. -/
def handle_telemetry_joints (current_angles : List Json) (telemetry : Json) :
    List Json :=
  match telemetry.getKey "joints" with
  | some (.arr joints) => if joints.length = 6 then joints else current_angles
  | _ => current_angles

/-- Model of ArmController.disconnect: clear the running flag, join the
telemetry thread (bounded, no state change), and close the serial handle
if it is open.  Every branch returns normally. -/
def disconnect (c : ArmController) : ArmController :=
  let c1 : ArmController := { c with running := false }
  match c1.serial with
  | some ser =>
    if ser.isOpen then { c1 with serial := some { isOpen := false } } else c1
  | none => c1

/-- The Transport is closed: no serial handle, or a handle no longer
open. -/
def serialClosed (c : ArmController) : Bool :=
  match c.serial with
  | some ser => !ser.isOpen
  | none => true

/-! ## Basic lemmas about the reply-wait loop and decoding -/

theorem loads_nil : loads [] = none := rfl

theorem readAccum_no_newline (avail : List Char) (h : '\n' ∉ avail) :
    readAccum avail = avail := by
  induction avail with
  | nil => rfl
  | cons c rest ih =>
    have hc : c ≠ '\n' := fun hc => h (hc ▸ List.mem_cons_self c rest)
    have hrest : '\n' ∉ rest := fun hr => h (List.mem_cons_of_mem c hr)
    simp [readAccum, hc, ih hrest]

theorem getKey_isSome_isDict (j : Json) (k : String)
    (h : (j.getKey k).isSome = true) : j.isDict = true := by
  cases j <;> simp [Json.getKey, Json.isDict] at h ⊢

theorem strip_decodes_nonempty (l : List Char) (d : Json)
    (h : loads (strip l) = some d) : strip l ≠ [] := by
  intro he
  rw [he] at h
  exact Option.noConfusion h

/-! ## Claim theorems -/

/-- C10: for every Command, send_command called while no Transport is
connected (the serial handle is absent or not open) returns None, writes
no bytes to the Transport, and raises nothing (the model is total). -/
theorem send_not_connected (serial : Option Serial) (command : Json)
    (avail : List Char)
    (h : serial = none ∨ ∃ ser, serial = some ser ∧ ser.isOpen = false) :
    send_command serial command avail = (none, []) := by
  rcases h with h | ⟨ser, rfl, hser⟩
  · subst h; rfl
  · simp [send_command, hser]

/-- Witness for C10 at a concrete disconnected state and command. -/
theorem send_not_connected_witness :
    send_command none pingCommand ['x'] = (none, []) :=
  send_not_connected none pingCommand ['x'] (Or.inl rfl)

/-- C9: disconnect is idempotent and raises no error (the model is
total): after one call the Transport is closed, after two successive
calls it is still closed and the state is the same as after one, and a
call on an already-disconnected controller is a no-op. -/
theorem disconnect_idempotent (c : ArmController) :
    serialClosed (disconnect c) = true ∧
    serialClosed (disconnect (disconnect c)) = true ∧
    disconnect (disconnect c) = disconnect c ∧
    (c.running = false → serialClosed c = true → disconnect c = c) := by
  obtain ⟨ser, running, ht⟩ := c
  match ser, running with
  | none, r => refine ⟨rfl, rfl, rfl, ?_⟩; rintro rfl _; rfl
  | some ⟨false⟩, r => refine ⟨rfl, rfl, rfl, ?_⟩; rintro rfl _; rfl
  | some ⟨true⟩, r =>
    refine ⟨rfl, rfl, rfl, ?_⟩
    rintro rfl h
    exact absurd h (by simp [serialClosed])

/-- Witness for C9: a connected controller is closed after one
disconnect, a second disconnect changes nothing, and disconnect on an
already-disconnected controller is the identity. -/
theorem disconnect_idempotent_witness :
    serialClosed (disconnect ⟨some ⟨true⟩, true, true⟩) = true ∧
    disconnect (disconnect ⟨some ⟨true⟩, true, true⟩) =
      disconnect ⟨some ⟨true⟩, true, true⟩ ∧
    disconnect ⟨some ⟨false⟩, false, true⟩ = ⟨some ⟨false⟩, false, true⟩ :=
  ⟨(disconnect_idempotent ⟨some ⟨true⟩, true, true⟩).1,
   (disconnect_idempotent ⟨some ⟨true⟩, true, true⟩).2.2.1,
   (disconnect_idempotent ⟨some ⟨false⟩, false, true⟩).2.2.2 rfl rfl⟩

/-- C6: every line received and successfully decoded during a send call
yields a non-None result: the decoded object itself when it is a dict
containing a cmd key and not typed telemetry, and the synthetic minimal
success Reply otherwise. -/
theorem send_decoded_line_reply (ser : Serial) (command : Json)
    (avail : List Char) (d : Json) (hopen : ser.isOpen = true)
    (hdec : loads (strip (readAccum avail)) = some d) :
    (send_command (some ser) command avail).1 =
      some (if isCommandReply d then d else syntheticOkReply) ∧
    (send_command (some ser) command avail).1 ≠ none := by
  have hne := strip_decodes_nonempty (readAccum avail) d hdec
  obtain ⟨o⟩ := ser
  cases hopen
  constructor
  · simp only [send_command, Bool.not_true, Bool.false_eq_true, if_false, hne,
      if_neg hne, hdec]
    split <;> rfl
  · simp only [send_command, Bool.not_true, Bool.false_eq_true, if_false,
      if_neg hne, hdec]
    split <;> simp

/-- Witness for C6: a telemetry line consumed by send_command yields the
synthetic success Reply, which is not None. -/
theorem send_decoded_line_reply_witness :
    (send_command (some ⟨true⟩) pingCommand
      (encode (Json.obj [("type", Json.str "telemetry"),
        ("state", Json.str "idle")]))).1 = some syntheticOkReply ∧
    (send_command (some ⟨true⟩) pingCommand
      (encode (Json.obj [("type", Json.str "telemetry"),
        ("state", Json.str "idle")]))).1 ≠ none :=
  ⟨(send_decoded_line_reply ⟨true⟩ pingCommand
      (encode (Json.obj [("type", Json.str "telemetry"),
        ("state", Json.str "idle")]))
      (Json.obj [("type", Json.str "telemetry"),
        ("state", Json.str "idle")]) rfl rfl).1,
   (send_decoded_line_reply ⟨true⟩ pingCommand
      (encode (Json.obj [("type", Json.str "telemetry"),
        ("state", Json.str "idle")]))
      (Json.obj [("type", Json.str "telemetry"),
        ("state", Json.str "idle")]) rfl rfl).2⟩

/-- C1 counterexample: the Transport echoes back exactly the bytes written
for the ping Command; send_command returns that object as the Reply, yet
the boolean ping() wrapper returns false, because the echoed object has no
state key. -/
theorem ping_echo_counterexample :
    (send_command (some ⟨true⟩) pingCommand (encode pingCommand)).1 =
      some pingCommand ∧
    ping (some ⟨true⟩) (encode pingCommand) = false :=
  ⟨rfl, rfl⟩

/-- C1 amended: for every well-formed reply object containing cmd and not
typed telemetry that the Transport returns in response to a ping Command,
send_command returns that object as the Reply, and ping() returns true
exactly when the Reply carries a state key (in particular it returns
false on the bare echo of the ping bytes). -/
theorem ping_reply_state (ser : Serial) (avail : List Char) (r : Json)
    (hopen : ser.isOpen = true)
    (hdec : loads (strip (readAccum avail)) = some r)
    (hrep : isCommandReply r = true) :
    (send_command (some ser) pingCommand avail).1 = some r ∧
    ping (some ser) avail = (r.getKey "state").isSome := by
  have hne := strip_decodes_nonempty (readAccum avail) r hdec
  obtain ⟨o⟩ := ser
  cases hopen
  have hsend : (send_command (some ⟨true⟩) pingCommand avail).1 = some r := by
    simp only [send_command, Bool.not_true, Bool.false_eq_true, if_false,
      if_neg hne, hdec, if_pos hrep]
  refine ⟨hsend, ?_⟩
  simp only [ping, hsend]

/-- Witness for C1: a reply carrying a state key makes ping() return
true. -/
theorem ping_reply_state_witness :
    ping (some ⟨true⟩)
      (encode (Json.obj [("cmd", Json.str "ping"),
        ("state", Json.str "idle")])) = true :=
  (ping_reply_state ⟨true⟩
    (encode (Json.obj [("cmd", Json.str "ping"), ("state", Json.str "idle")]))
    (Json.obj [("cmd", Json.str "ping"), ("state", Json.str "idle")])
    rfl rfl rfl).2

/-- C4 counterexample: a decoded reply-path object with a cmd key and no
state key is classified as a command reply and returned by send_command,
contradicting the claim that a state key is required. -/
theorem reply_without_state_counterexample :
    (Json.obj [("cmd", Json.str "ping")]).getKey "state" = none ∧
    isCommandReply (Json.obj [("cmd", Json.str "ping")]) = true ∧
    (send_command (some ⟨true⟩) pingCommand
      (encode (Json.obj [("cmd", Json.str "ping")]))).1 =
      some (Json.obj [("cmd", Json.str "ping")]) :=
  ⟨rfl, rfl, rfl⟩

/-- C4 amended: send_command classifies a decoded reply-path object as a
command reply exactly when it is a dict containing a cmd key whose type is
not telemetry; no state key is consulted, and such an object is returned
as the Reply. -/
theorem reply_classification_no_state (ser : Serial) (command : Json)
    (avail : List Char) (d : Json) (hopen : ser.isOpen = true)
    (hdec : loads (strip (readAccum avail)) = some d)
    (hdict : d.isDict = true) (hcmd : (d.getKey "cmd").isSome = true)
    (htel : d.typeIsTelemetry = false) :
    isCommandReply d = true ∧
    (send_command (some ser) command avail).1 = some d := by
  have hne := strip_decodes_nonempty (readAccum avail) d hdec
  have hrep : isCommandReply d = true := by
    simp [isCommandReply, hdict, hcmd, htel]
  obtain ⟨o⟩ := ser
  cases hopen
  refine ⟨hrep, ?_⟩
  simp only [send_command, Bool.not_true, Bool.false_eq_true, if_false,
    if_neg hne, hdec, if_pos hrep]

/-- Witness for C4 at a concrete cmd-only object without a state key. -/
theorem reply_classification_no_state_witness :
    isCommandReply (Json.obj [("cmd", Json.str "estop")]) = true ∧
    (send_command (some ⟨true⟩) pingCommand
      (encode (Json.obj [("cmd", Json.str "estop")]))).1 =
      some (Json.obj [("cmd", Json.str "estop")]) :=
  reply_classification_no_state ⟨true⟩ pingCommand
    (encode (Json.obj [("cmd", Json.str "estop")]))
    (Json.obj [("cmd", Json.str "estop")]) rfl rfl rfl rfl rfl

/-- C5 counterexample: a Transport that yields the bytes of a complete
JSON object but never a newline within the timeout does not make
send_command return None: the accumulated truncated line is processed as if
complete and the echoed object is returned. -/
theorem truncated_line_counterexample :
    '\n' ∉ dumpsV pingCommand ∧
    (send_command (some ⟨true⟩) pingCommand (dumpsV pingCommand)).1 =
      some pingCommand :=
  ⟨by decide, rfl⟩

/-- C5 amended: when the Transport produces no newline within the timeout
window, send_command returns None (and raises nothing) provided the bytes
accumulated before the timeout strip to the empty line or fail to decode;
a decodable accumulation is processed as a complete line instead. -/
theorem send_no_newline_none (ser : Serial) (command : Json)
    (avail : List Char) (hopen : ser.isOpen = true) (hnl : '\n' ∉ avail)
    (hbad : strip avail = [] ∨ loads (strip avail) = none) :
    (send_command (some ser) command avail).1 = none := by
  obtain ⟨o⟩ := ser
  cases hopen
  rw [show send_command (some ⟨true⟩) command avail =
    (let response_line := strip (readAccum avail)
     if response_line = [] then (none, encode command)
     else
       match loads response_line with
       | none => (none, encode command)
       | some response =>
         if isCommandReply response then (some response, encode command)
         else (some syntheticOkReply, encode command)) from rfl]
  rw [readAccum_no_newline avail hnl]
  rcases hbad with hbad | hbad
  · simp [hbad]
  · by_cases he : strip avail = []
    · simp [he]
    · simp [he, hbad]

/-- Witness for C5: undecodable bytes and no newline yield None. -/
theorem send_no_newline_none_witness :
    (send_command (some ⟨true⟩) pingCommand ('g' :: 'a' :: 'r' :: 'b' :: [])).1 =
      none :=
  send_no_newline_none ⟨true⟩ pingCommand ('g' :: 'a' :: 'r' :: 'b' :: [])
    rfl (by decide) (Or.inr rfl)

/-- C8: a malformed, non-JSON-decodable line is handled locally on both
paths: the reply path of send_command returns None, and the telemetry
loop body discards the line and continues (no abort, no delivery),
whether or not a callback is registered. -/
theorem decode_error_handling :
    (∀ (ser : Serial) (command : Json) (avail : List Char),
      ser.isOpen = true → loads (strip (readAccum avail)) = none →
      (send_command (some ser) command avail).1 = none) ∧
    (∀ (hasCallback : Bool) (raw : List Char), loads (strip raw) = none →
      read_telemetry_line hasCallback raw = .skipped) := by
  constructor
  · intro ser command avail hopen hdec
    obtain ⟨o⟩ := ser
    cases hopen
    by_cases he : strip (readAccum avail) = []
    · simp [send_command, he]
    · simp [send_command, he, hdec]
  · intro hasCallback raw hdec
    by_cases he : strip raw = []
    · simp [read_telemetry_line, he]
    · simp [read_telemetry_line, he, hdec]

/-- Witness for C8 at a concrete malformed line on both paths. -/
theorem decode_error_handling_witness :
    (send_command (some ⟨true⟩) pingCommand
      ('n' :: 'o' :: 't' :: ' ' :: 'j' :: 's' :: 'o' :: 'n' :: '\n' :: [])).1 =
      none ∧
    read_telemetry_line true
      ('n' :: 'o' :: 't' :: ' ' :: 'j' :: 's' :: 'o' :: 'n' :: '\n' :: []) =
      .skipped :=
  ⟨decode_error_handling.1 ⟨true⟩ pingCommand
      ('n' :: 'o' :: 't' :: ' ' :: 'j' :: 's' :: 'o' :: 'n' :: '\n' :: [])
      rfl rfl,
   decode_error_handling.2 true
      ('n' :: 'o' :: 't' :: ' ' :: 'j' :: 's' :: 'o' :: 'n' :: '\n' :: [])
      rfl⟩

/-- C2 counterexample: a telemetry frame whose joints array has length
three is not discarded by the telemetry loop: the subscriber callback is
invoked with it. -/
theorem telemetry_short_joints_counterexample :
    [Json.num 1 0, Json.num 2 0, Json.num 3 0].length ≠ 6 ∧
    read_telemetry_line true
      (dumpsV (Json.obj [("type", Json.str "telemetry"),
        ("joints", Json.arr [Json.num 1 0, Json.num 2 0, Json.num 3 0])]) ++
        ['\n']) =
      .delivered (Json.obj [("type", Json.str "telemetry"),
        ("joints", Json.arr [Json.num 1 0, Json.num 2 0, Json.num 3 0])]) :=
  ⟨by decide, rfl⟩

/-- C2 amended: the telemetry loop forwards a decoded telemetry frame
containing a joints key whatever the length of its array; the length-six
check lives in the subscribing GUI handler, which leaves the current
angles unchanged for any other length, so the malformed frame is never
applied. -/
theorem telemetry_any_joints_forwarded (d : Json) (js : List Json)
    (raw : List Char) (current_angles : List Json)
    (hdec : loads (strip raw) = some d)
    (htel : d.typeIsTelemetry = true)
    (hj : d.getKey "joints" = some (Json.arr js))
    (hlen : js.length ≠ 6) :
    read_telemetry_line true raw = .delivered d ∧
    handle_telemetry_joints current_angles d = current_angles := by
  have hne : strip raw ≠ [] := by
    intro he
    rw [he] at hdec
    exact Option.noConfusion hdec
  have hdict : d.isDict = true :=
    getKey_isSome_isDict d "joints" (by rw [hj]; rfl)
  constructor
  · simp [read_telemetry_line, hne, hdec, hdict, htel, hj]
  · simp [handle_telemetry_joints, hj, hlen]

/-- Witness for C2 at a concrete two-element joints frame. -/
theorem telemetry_any_joints_forwarded_witness :
    read_telemetry_line true
      (encode (Json.obj [("type", Json.str "telemetry"),
        ("joints", Json.arr [Json.num 7 0, Json.num 8 0])])) =
      .delivered (Json.obj [("type", Json.str "telemetry"),
        ("joints", Json.arr [Json.num 7 0, Json.num 8 0])]) ∧
    handle_telemetry_joints [Json.num 0 0]
      (Json.obj [("type", Json.str "telemetry"),
        ("joints", Json.arr [Json.num 7 0, Json.num 8 0])]) = [Json.num 0 0] :=
  telemetry_any_joints_forwarded
    (Json.obj [("type", Json.str "telemetry"),
      ("joints", Json.arr [Json.num 7 0, Json.num 8 0])])
    [Json.num 7 0, Json.num 8 0]
    (encode (Json.obj [("type", Json.str "telemetry"),
      ("joints", Json.arr [Json.num 7 0, Json.num 8 0])]))
    [Json.num 0 0] rfl rfl rfl (by decide)

/-- C3 counterexample: a successfully decoded telemetry-classified frame
carrying only a state key and no joints key is discarded by the telemetry
loop, not forwarded to the subscriber. -/
theorem telemetry_state_only_counterexample :
    loads (strip (dumpsV (Json.obj [("type", Json.str "telemetry"),
        ("state", Json.str "estop")]) ++ ['\n'])) =
      some (Json.obj [("type", Json.str "telemetry"),
        ("state", Json.str "estop")]) ∧
    (Json.obj [("type", Json.str "telemetry"),
        ("state", Json.str "estop")]).typeIsTelemetry = true ∧
    read_telemetry_line true
      (dumpsV (Json.obj [("type", Json.str "telemetry"),
        ("state", Json.str "estop")]) ++ ['\n']) = .skipped :=
  ⟨rfl, rfl, rfl⟩

/-- C3 amended: a successfully decoded telemetry-classified frame is
forwarded to the subscriber exactly when it contains a joints key; a
telemetry frame without one (for example a state-only frame) is
discarded, as are malformed and non-telemetry lines. -/
theorem telemetry_joints_key_required (d : Json) (raw : List Char)
    (hdec : loads (strip raw) = some d) (hdict : d.isDict = true)
    (htel : d.typeIsTelemetry = true) :
    read_telemetry_line true raw =
      (if (d.getKey "joints").isSome then .delivered d else .skipped) := by
  have hne : strip raw ≠ [] := by
    intro he
    rw [he] at hdec
    exact Option.noConfusion hdec
  by_cases hj : (d.getKey "joints").isSome
  · simp [read_telemetry_line, hne, hdec, hdict, htel, hj]
  · simp [read_telemetry_line, hne, hdec, hdict, htel, hj]

/-- Witness for C3 at a concrete six-joint telemetry frame, which is
forwarded. -/
theorem telemetry_joints_key_required_witness :
    read_telemetry_line true
      (encode (Json.obj [("type", Json.str "telemetry"),
        ("joints", Json.arr [Json.num 90 0, Json.num 45 0, Json.num 120 0,
          Json.num 90 0, Json.num 0 0, Json.num 30 0])])) =
      .delivered (Json.obj [("type", Json.str "telemetry"),
        ("joints", Json.arr [Json.num 90 0, Json.num 45 0, Json.num 120 0,
          Json.num 90 0, Json.num 0 0, Json.num 30 0])]) :=
  telemetry_joints_key_required
    (Json.obj [("type", Json.str "telemetry"),
      ("joints", Json.arr [Json.num 90 0, Json.num 45 0, Json.num 120 0,
        Json.num 90 0, Json.num 0 0, Json.num 30 0])])
    (encode (Json.obj [("type", Json.str "telemetry"),
      ("joints", Json.arr [Json.num 90 0, Json.num 45 0, Json.num 120 0,
        Json.num 90 0, Json.num 0 0, Json.num 30 0])]))
    rfl rfl rfl

/-! ## Codec round-trip: digits and numbers -/

theorem digitChar_props : ∀ d, d < 10 →
    isDigit (digitChar d) = true ∧ charVal (digitChar d) = d ∧
    isJsonWs (digitChar d) = false ∧ digitChar d ≠ 'n' ∧ digitChar d ≠ 't' ∧
    digitChar d ≠ 'f' ∧ digitChar d ≠ '"' ∧ digitChar d ≠ '[' ∧
    digitChar d ≠ '{' ∧ digitChar d ≠ '-' ∧ digitChar d ≠ ']' ∧
    digitChar d ≠ '}' := by decide

theorem digitChar_ne_zero : ∀ d, d < 10 → d ≠ 0 → digitChar d ≠ '0' := by decide

theorem natToRevDigits_spec :
    ∀ n fuel, n ≤ fuel →
      ofRevDigits (natToRevDigits fuel n) = n ∧
      (∀ d ∈ natToRevDigits fuel n, d < 10) ∧
      (∀ x, (natToRevDigits fuel n).getLast? = some x → x ≠ 0) ∧
      (n ≠ 0 → natToRevDigits fuel n ≠ []) := by
  intro n
  induction n using Nat.strong_induction_on with
  | _ n ih =>
    match n with
    | 0 =>
      intro fuel _
      have he : natToRevDigits fuel 0 = [] := by cases fuel <;> rfl
      simp [he, ofRevDigits]
    | n + 1 =>
      intro fuel hfuel
      match fuel, hfuel with
      | fuel + 1, hfuel =>
        have hdiv : (n + 1) / 10 < n + 1 := Nat.div_lt_self (Nat.succ_pos n) (by norm_num)
        obtain ⟨h1, h2, h3, h4⟩ := ih ((n + 1) / 10) hdiv fuel (by omega)
        have heq : natToRevDigits (fuel + 1) (n + 1) =
            ((n + 1) % 10) :: natToRevDigits fuel ((n + 1) / 10) := rfl
        rw [heq]
        refine ⟨?_, ?_, ?_, ?_⟩
        · show (n + 1) % 10 + 10 * ofRevDigits (natToRevDigits fuel ((n + 1) / 10)) = n + 1
          rw [h1]
          omega
        · intro d hd
          rcases List.mem_cons.mp hd with hd | hd
          · subst hd; exact Nat.mod_lt _ (by norm_num)
          · exact h2 d hd
        · intro x hx
          by_cases hr : natToRevDigits fuel ((n + 1) / 10) = []
          · rw [hr] at hx
            simp at hx
            have hq : (n + 1) / 10 = 0 := by
              by_contra hq
              exact (h4 hq) hr
            have : n + 1 < 10 := by omega
            subst hx
            omega
          · obtain ⟨y, ys, hys⟩ := List.exists_cons_of_ne_nil hr
            rw [hys, List.getLast?_cons_cons] at hx
            exact h3 x (by rw [hys]; exact hx)
        · intro _
          exact List.cons_ne_nil _ _

theorem readNat_append (acc : Nat) (l1 l2 : List Char) :
    readNat acc (l1 ++ l2) = readNat (readNat acc l1) l2 :=
  List.foldl_append _ _ _ _

theorem readNat_map_digitChar (acc : Nat) (ds : List Nat) (h : ∀ d ∈ ds, d < 10) :
    readNat acc (ds.map digitChar) = ds.foldl (fun a d => 10 * a + d) acc := by
  unfold readNat
  rw [List.foldl_map]
  exact List.foldl_ext _ _ acc (fun a b hb => by rw [(digitChar_props b (h b hb)).2.1])

theorem foldl_reverse_ofRevDigits (acc : Nat) (ds : List Nat) :
    ds.reverse.foldl (fun a d => 10 * a + d) acc =
      acc * 10 ^ ds.length + ofRevDigits ds := by
  induction ds generalizing acc with
  | nil => simp [ofRevDigits]
  | cons d t ih =>
    rw [List.reverse_cons, List.foldl_append]
    show 10 * (t.reverse.foldl (fun a d => 10 * a + d) acc) + d = _
    rw [ih]
    show 10 * (acc * 10 ^ t.length + ofRevDigits t) + d =
      acc * 10 ^ (t.length + 1) + (d + 10 * ofRevDigits t)
    rw [pow_succ]
    ring

theorem natChars_mem (n : Nat) :
    ∀ c ∈ natChars n, ∃ d, d < 10 ∧ c = digitChar d := by
  intro c hc
  unfold natChars at hc
  by_cases hn : n = 0
  · rw [if_pos hn] at hc
    simp at hc
    exact ⟨0, by norm_num, by rw [hc]; rfl⟩
  · rw [if_neg hn] at hc
    obtain ⟨d, hd, rfl⟩ := List.mem_map.mp hc
    have hd10 := (natToRevDigits_spec n n le_rfl).2.1 d (List.mem_reverse.mp hd)
    exact ⟨d, hd10, rfl⟩

theorem natChars_all_digits (n : Nat) : ∀ c ∈ natChars n, isDigit c = true := by
  intro c hc
  obtain ⟨d, hd, rfl⟩ := natChars_mem n c hc
  exact (digitChar_props d hd).1

theorem readNat_natChars (n : Nat) : readNat 0 (natChars n) = n := by
  unfold natChars
  by_cases hn : n = 0
  · rw [if_pos hn, hn]; rfl
  · rw [if_neg hn]
    obtain ⟨h1, h2, _, _⟩ := natToRevDigits_spec n n le_rfl
    rw [readNat_map_digitChar 0 _ (fun d hd => h2 d (List.mem_reverse.mp hd)),
      foldl_reverse_ofRevDigits, h1]
    simp

theorem natChars_cons (n : Nat) :
    ∃ c cs, natChars n = c :: cs ∧ (∃ d, d < 10 ∧ c = digitChar d) ∧
      (n ≠ 0 → c ≠ '0') := by
  by_cases hn : n = 0
  · exact ⟨ '0', [], by rw [hn]; rfl, ⟨0, by norm_num, rfl⟩, fun h => absurd hn h⟩
  · obtain ⟨h1, h2, h3, h4⟩ := natToRevDigits_spec n n le_rfl
    obtain ⟨y, ys, hys⟩ := List.exists_cons_of_ne_nil (h4 hn)
    have hrev : (natToRevDigits n n).reverse ≠ [] := by
      rw [hys]; simp
    obtain ⟨z, zs, hzs⟩ := List.exists_cons_of_ne_nil hrev
    have hz : (natToRevDigits n n).getLast? = some z := by
      rw [← List.head?_reverse, hzs]; rfl
    have hz0 : z ≠ 0 := h3 z hz
    have hz10 : z < 10 := h2 z (by
      have : z ∈ (natToRevDigits n n).reverse := by rw [hzs]; exact List.mem_cons_self _ _
      exact List.mem_reverse.mp this)
    refine ⟨digitChar z, zs.map digitChar, ?_, ⟨z, hz10, rfl⟩, fun _ => digitChar_ne_zero z hz10 hz0⟩
    unfold natChars
    rw [if_neg hn, hzs]
    rfl

theorem numStop_digitStop (s : List Char) (h : numStop s = true) :
    digitStop s = true := by
  cases s with
  | nil => rfl
  | cons c t =>
    simp [numStop] at h
    simp [digitStop, h.1]

theorem takeDigits_append (digits rest : List Char)
    (hds : ∀ c ∈ digits, isDigit c = true) (hrest : digitStop rest = true) :
    takeDigits (digits ++ rest) = (digits, rest) := by
  induction digits with
  | cons c cs ih =>
    have hc := hds c (List.mem_cons_self c cs)
    have ih2 := ih (fun x hx => hds x (List.mem_cons_of_mem c hx))
    simp [takeDigits, hc, ih2]
  | nil =>
    cases rest with
    | nil => rfl
    | cons c t =>
      simp [digitStop] at hrest
      simp [takeDigits, hrest]

theorem readNat_replicate_zero (k : Nat) :
    readNat 0 (List.replicate k '0') = 0 := by
  induction k with
  | zero => rfl
  | succ k ih =>
    rw [List.replicate_succ]
    show readNat (10 * 0 + charVal '0') (List.replicate k '0') = 0
    norm_num [charVal]
    exact ih

theorem padLeft_all_digits (e : Nat) (n : Nat) :
    ∀ c ∈ padLeft e (natChars n), isDigit c = true := by
  intro c hc
  rcases List.mem_append.mp hc with hc | hc
  · rw [List.eq_of_mem_replicate hc]; rfl
  · exact natChars_all_digits n c hc

theorem padLeft_readNat (e : Nat) (n : Nat) :
    readNat 0 (padLeft e (natChars n)) = n := by
  unfold padLeft
  rw [readNat_append, readNat_replicate_zero, readNat_natChars]

theorem padLeft_length (e : Nat) (n : Nat) :
    e + 1 ≤ (padLeft e (natChars n)).length := by
  unfold padLeft
  rw [List.length_append, List.length_replicate]
  omega

theorem parseExp_stop (m e : Nat) (s : List Char) (h : numStop s = true) :
    parseExp m e s = ((Int.ofNat m, e), s) := by
  unfold parseExp
  cases s with
  | nil => rfl
  | cons c t =>
    simp only [numStop, Bool.not_eq_true', Bool.or_eq_false_iff,
      decide_eq_false_iff_not] at h
    rw [if_neg]
    simp [List.head?]
    exact ⟨h.1.2, h.2⟩

theorem parseFrac_stop (ip : Nat) (s : List Char) (h : numStop s = true) :
    parseFrac ip s = some ((Int.ofNat ip, 0), s) := by
  unfold parseFrac
  rw [if_neg, parseExp_stop ip 0 s h]
  cases s with
  | nil => simp
  | cons c t =>
    simp only [numStop, Bool.not_eq_true', Bool.or_eq_false_iff,
      decide_eq_false_iff_not] at h
    simp [List.head?]
    exact h.1.1.2

theorem parseUNum_cons (c : Char) (t : List Char) :
    parseUNum (c :: t) =
      if c = '0' then parseFrac 0 t
      else if isDigit c then
        let p := takeDigits (c :: t)
        parseFrac (readNat 0 p.1) p.2
      else none := rfl

theorem parseFrac_frac (ip : Nat) (fp rest : List Char)
    (hfp : ∀ c ∈ fp, isDigit c = true) (hne : fp ≠ [])
    (hstop : numStop rest = true) :
    parseFrac ip ('.' :: (fp ++ rest)) =
      some ((Int.ofNat (readNat ip fp), fp.length), rest) := by
  unfold parseFrac
  rw [if_pos (by rw [List.head?_cons])]
  rw [List.tail_cons,
    takeDigits_append fp rest hfp (numStop_digitStop rest hstop)]
  rw [if_neg hne]
  rw [parseExp_stop _ _ _ hstop]

theorem parseUNum_numChars (n e : Nat) (rest : List Char)
    (hstop : numStop rest = true) :
    parseUNum (numChars n e ++ rest) = some ((Int.ofNat n, e), rest) := by
  by_cases he : e = 0
  · subst he
    rw [show numChars n 0 = natChars n from rfl]
    by_cases hn : n = 0
    · subst hn
      rw [show natChars 0 = ['0'] from rfl]
      show parseUNum ('0' :: rest) = _
      rw [parseUNum_cons, if_pos rfl, parseFrac_stop 0 rest hstop]
    · obtain ⟨c, cs, hcons, ⟨d, hd10, hcd⟩, h0⟩ := natChars_cons n
      rw [hcons, List.cons_append]
      rw [parseUNum_cons, if_neg (h0 hn),
        if_pos (by subst hcd; exact (digitChar_props d hd10).1)]
      rw [← List.cons_append,
        takeDigits_append (c :: cs) rest
          (by rw [← hcons]; exact natChars_all_digits n)
          (numStop_digitStop rest hstop)]
      show parseFrac (readNat 0 (c :: cs)) rest = _
      rw [← hcons, readNat_natChars, parseFrac_stop n rest hstop]
  · have hds := padLeft_all_digits e n
    have hlen := padLeft_length e n
    have hval := padLeft_readNat e n
    set ds := padLeft e (natChars n) with hdsdef
    set L := ds.length with hLdef
    have hnum : numChars n e = ds.take (L - e) ++ '.' :: ds.drop (L - e) := by
      simp [numChars, he]
    have hfp_len : (ds.drop (L - e)).length = e := by
      rw [List.length_drop]
      omega
    have hfp_ne : ds.drop (L - e) ≠ [] := by
      intro hcon
      rw [hcon] at hfp_len
      simp at hfp_len
      omega
    have hfp_dig : ∀ c ∈ ds.drop (L - e), isDigit c = true :=
      fun c hc => hds c (List.drop_subset _ _ hc)
    have hip_dig : ∀ c ∈ ds.take (L - e), isDigit c = true :=
      fun c hc => hds c (List.take_subset _ _ hc)
    have hsplit : readNat (readNat 0 (ds.take (L - e))) (ds.drop (L - e)) = n := by
      rw [← readNat_append, List.take_append_drop, hval]
    by_cases hpad : (natChars n).length ≤ e
    · have hk : e + 1 - (natChars n).length = (e - (natChars n).length) + 1 := by
        omega
      have hds_cons : ds = '0' ::
          (List.replicate (e - (natChars n).length) '0' ++ natChars n) := by
        rw [hdsdef]
        unfold padLeft
        rw [hk, List.replicate_succ, List.cons_append]
      have hL : L = e + 1 := by
        rw [hLdef, hds_cons]
        simp
        omega
      have htake : ds.take (L - e) = ['0'] := by
        rw [hds_cons, hL]
        simp
      have hdrop : ds.drop (L - e) =
          List.replicate (e - (natChars n).length) '0' ++ natChars n := by
        rw [hds_cons, hL]
        simp
      rw [hnum, htake, hdrop]
      show parseUNum ('0' :: ('.' ::
        (List.replicate (e - (natChars n).length) '0' ++ natChars n) ++ rest)) = _
      rw [parseUNum_cons, if_pos rfl]
      rw [List.cons_append, parseFrac_frac 0 _ rest
        (by rw [← hdrop]; exact hfp_dig) (by rw [← hdrop]; exact hfp_ne) hstop]
      have : readNat 0 (List.replicate (e - (natChars n).length) '0' ++ natChars n) = n := by
        rw [readNat_append, readNat_replicate_zero, readNat_natChars]
      rw [this, ← hdrop, hfp_len]
    · have hn : n ≠ 0 := by
        intro hcon
        subst hcon
        rw [show natChars 0 = ['0'] from rfl] at hpad
        simp at hpad
        omega
      have hds_eq : ds = natChars n := by
        rw [hdsdef]
        unfold padLeft
        rw [show e + 1 - (natChars n).length = 0 from by omega]
        rfl
      obtain ⟨c, cs, hcons, ⟨d, hd10, hcd⟩, h0⟩ := natChars_cons n
      have hLnc : L = (natChars n).length := by rw [hLdef, hds_eq]
      have htake_cons : ds.take (L - e) = c :: cs.take (L - e - 1) := by
        rw [hds_eq, hcons, show L - e = (L - e - 1) + 1 from by omega]
        rfl
      rw [hnum, htake_cons, List.cons_append, List.cons_append]
      rw [parseUNum_cons, if_neg (h0 hn),
        if_pos (by subst hcd; exact (digitChar_props d hd10).1)]
      have hform : c :: ((List.take (L - e - 1) cs ++ '.' :: List.drop (L - e) ds) ++ rest) =
          List.take (L - e) ds ++ ('.' :: (List.drop (L - e) ds ++ rest)) := by
        rw [htake_cons]
        simp
      rw [hform,
        takeDigits_append (ds.take (L - e)) ('.' :: (ds.drop (L - e) ++ rest))
          hip_dig (by rfl)]
      show parseFrac (readNat 0 (ds.take (L - e)))
        ('.' :: (ds.drop (L - e) ++ rest)) = _
      rw [parseFrac_frac _ _ rest hfp_dig hfp_ne hstop, hsplit, hfp_len]

theorem numChars_head (n e : Nat) :
    ∃ d cs, d < 10 ∧ numChars n e = digitChar d :: cs := by
  by_cases he : e = 0
  · subst he
    obtain ⟨c, cs, hcons, ⟨d, hd, hcd⟩, _⟩ := natChars_cons n
    exact ⟨d, cs, hd, by rw [show numChars n 0 = natChars n from rfl, hcons, hcd]⟩
  · have hlen := padLeft_length e n
    set ds := padLeft e (natChars n) with hdsdef
    set L := ds.length with hLdef
    have hnum : numChars n e = ds.take (L - e) ++ '.' :: ds.drop (L - e) := by
      simp [numChars, he]
    have hhead : ∃ d t, d < 10 ∧ ds = digitChar d :: t := by
      by_cases hpad : (natChars n).length ≤ e
      · refine ⟨0, List.replicate (e - (natChars n).length) '0' ++ natChars n,
          by norm_num, ?_⟩
        rw [hdsdef]
        unfold padLeft
        rw [show e + 1 - (natChars n).length = (e - (natChars n).length) + 1
          from by omega, List.replicate_succ, List.cons_append]
        rfl
      · obtain ⟨c, cs, hcons, ⟨d, hd, hcd⟩, _⟩ := natChars_cons n
        refine ⟨d, cs, hd, ?_⟩
        rw [hdsdef]
        unfold padLeft
        rw [show e + 1 - (natChars n).length = 0 from by omega]
        rw [List.replicate_zero, List.nil_append, hcons, hcd]
    obtain ⟨d, t, hd, hds_c⟩ := hhead
    have hsucc : L - e = (L - e - 1) + 1 := by omega
    refine ⟨d, t.take (L - e - 1) ++ '.' :: ds.drop (L - e), hd, ?_⟩
    rw [hnum]
    rw [hds_c, hsucc, List.take_succ_cons]
    simp

theorem parseNum_dumpsNum (m : Int) (e : Nat) (rest : List Char)
    (hstop : numStop rest = true) :
    parseNum (dumpsNum m e ++ rest) = some ((m, e), rest) := by
  by_cases hm : m < 0
  · rw [show dumpsNum m e = '-' :: numChars m.natAbs e from by
      simp [dumpsNum, hm]]
    rw [List.cons_append]
    unfold parseNum
    rw [if_pos (by rw [List.head?_cons])]
    rw [List.tail_cons, parseUNum_numChars m.natAbs e rest hstop]
    have hval : -(Int.ofNat m.natAbs) = m := by
      have hcast : Int.ofNat m.natAbs = (m.natAbs : Int) := rfl
      rw [hcast]
      omega
    simp only [Option.map_some']
    rw [hval]
  · rw [show dumpsNum m e = numChars m.natAbs e from by simp [dumpsNum, hm]]
    obtain ⟨d, cs, hd, hnc⟩ := numChars_head m.natAbs e
    unfold parseNum
    rw [if_neg (by
      rw [hnc, List.cons_append, List.head?_cons]
      intro hcon
      exact (digitChar_props d hd).2.2.2.2.2.2.2.2.2.1 (Option.some.inj hcon))]
    rw [parseUNum_numChars m.natAbs e rest hstop]
    have hval : Int.ofNat m.natAbs = m := by
      have hcast : Int.ofNat m.natAbs = (m.natAbs : Int) := rfl
      rw [hcast]
      omega
    rw [hval]

/-! ## Codec round-trip: strings, heads, whitespace -/

theorem stringMk_data (s : String) : String.mk s.data = s := rfl

theorem plainChar_props (c : Char) (h : plainChar c = true) :
    c ≠ '"' ∧ c ≠ '\\' ∧ ¬(c.toNat < 0x20) := by
  simp only [plainChar, Bool.and_eq_true, bne_iff_ne, decide_eq_true_eq] at h
  exact ⟨h.1.2, h.2, by omega⟩

theorem parseStrRest_quote (acc rest : List Char) :
    parseStrRest acc ('"' :: rest) = some (String.mk acc.reverse, rest) := by
  unfold parseStrRest
  rfl

theorem parseStrRest_cons_plain (acc : List Char) (c : Char) (cs : List Char)
    (h1 : c ≠ '"') (h2 : c ≠ '\\') (h3 : ¬(c.toNat < 0x20)) :
    parseStrRest acc (c :: cs) = parseStrRest (c :: acc) cs := by
  conv_lhs => unfold parseStrRest
  rw [if_neg h1, if_neg h2, if_neg h3]

theorem parseStrRest_plain (cs : List Char) (acc rest : List Char)
    (h : ∀ c ∈ cs, plainChar c = true) :
    parseStrRest acc (cs ++ '"' :: rest) =
      some (String.mk (acc.reverse ++ cs), rest) := by
  induction cs generalizing acc with
  | nil =>
    rw [List.nil_append, parseStrRest_quote]
    simp
  | cons c cs ih =>
    obtain ⟨h1, h2, h3⟩ := plainChar_props c (h c (List.mem_cons_self c cs))
    rw [List.cons_append, parseStrRest_cons_plain acc c _ h1 h2 h3]
    rw [ih (c :: acc) (fun x hx => h x (List.mem_cons_of_mem c hx))]
    simp

theorem skipWs_cons_of_not_ws (c : Char) (l : List Char)
    (h : isJsonWs c = false) : skipWs (c :: l) = c :: l := by
  simp [skipWs, List.dropWhile_cons, h]

theorem skipWs_space (l : List Char) : skipWs (' ' :: l) = skipWs l := by
  simp only [skipWs, List.dropWhile_cons]
  rw [if_pos (by decide : isJsonWs ' ' = true)]

theorem dumpsV_head (j : Json) :
    ∃ c cs, dumpsV j = c :: cs ∧ isJsonWs c = false ∧ c ≠ ']' ∧ c ≠ '}' := by
  cases j with
  | num m e =>
    by_cases hm : m < 0
    · refine ⟨ '-', numChars m.natAbs e, by simp [dumpsV, dumpsNum, hm], ?_⟩
      decide
    · obtain ⟨d, cs, hd, hnc⟩ := numChars_head m.natAbs e
      have hp := digitChar_props d hd
      exact ⟨digitChar d, cs, by simp [dumpsV, dumpsNum, hm, hnc],
        hp.2.2.1, hp.2.2.2.2.2.2.2.2.2.2.1, hp.2.2.2.2.2.2.2.2.2.2.2⟩
  | bool b => cases b with
    | false => exact ⟨ 'f', _, rfl, by decide⟩
    | true => exact ⟨ 't', _, rfl, by decide⟩
  | arr xs => cases xs with
    | nil => exact ⟨ '[', _, rfl, by decide⟩
    | cons x xs => exact ⟨ '[', _, rfl, by decide⟩
  | obj fs => cases fs with
    | nil => exact ⟨ '{', _, rfl, by decide⟩
    | cons f fs => exact ⟨ '{', _, rfl, by decide⟩
  | str s => exact ⟨ '"', _, rfl, by decide⟩
  | null => exact ⟨ 'n', _, rfl, by decide⟩

theorem dumpsV_ne_nil (j : Json) : dumpsV j ≠ [] := by
  obtain ⟨c, cs, hc, _⟩ := dumpsV_head j
  rw [hc]
  exact List.cons_ne_nil c cs

theorem dumpsV_length_pos (j : Json) : 1 ≤ (dumpsV j).length := by
  obtain ⟨c, cs, hc, _⟩ := dumpsV_head j
  rw [hc]
  simp

theorem skipWs_dumpsV (j : Json) (rest : List Char) :
    skipWs (dumpsV j ++ rest) = dumpsV j ++ rest := by
  obtain ⟨c, cs, hc, hws, _⟩ := dumpsV_head j
  rw [hc, List.cons_append, skipWs_cons_of_not_ws c _ hws]

theorem numStop_items (xs : List Json) (rest : List Char) :
    numStop (dumpsItems xs ++ ']' :: rest) = true := by
  cases xs with
  | nil => rfl
  | cons x xs => rfl

theorem numStop_fields (fs : List (String × Json)) (rest : List Char) :
    numStop (dumpsFields fs ++ '}' :: rest) = true := by
  cases fs with
  | nil => rfl
  | cons f fs => rfl

theorem parse_dumps (fuel : Nat) :
    (∀ j rest, wfV j = true → numStop rest = true →
      (dumpsV j).length ≤ fuel →
      parseValue fuel (dumpsV j ++ rest) = some (j, rest)) ∧
    (∀ x xs rest, wfV x = true → wfItems xs = true →
      (dumpsV x).length + (dumpsItems xs).length + 1 ≤ fuel →
      parseItems fuel (dumpsV x ++ (dumpsItems xs ++ ']' :: rest)) =
        some (x :: xs, rest)) ∧
    (∀ k v fs rest, plainString k = true → wfV v = true → wfFields fs = true →
      (dumpsField (k, v)).length + (dumpsFields fs).length + 1 ≤ fuel →
      parseFields fuel (dumpsField (k, v) ++ (dumpsFields fs ++ '}' :: rest)) =
        some ((k, v) :: fs, rest)) := by
  induction fuel with
  | zero =>
    refine ⟨?_, ?_, ?_⟩
    · intro j rest _ _ hlen
      have := dumpsV_length_pos j
      omega
    · intro x xs rest _ _ hlen
      omega
    · intro k v fs rest _ _ _ hlen
      omega
  | succ fuel ih =>
    obtain ⟨ihV, ihI, ihF⟩ := ih
    refine ⟨?_, ?_, ?_⟩
    · intro j rest hwf hstop hlen
      cases j with
      | null =>
        rw [show dumpsV .null ++ rest = 'n' :: 'u' :: 'l' :: 'l' :: rest from rfl]
        unfold parseValue
        simp
      | bool b =>
        cases b with
        | true =>
          rw [show dumpsV (.bool true) ++ rest =
            't' :: 'r' :: 'u' :: 'e' :: rest from rfl]
          unfold parseValue
          simp
        | false =>
          rw [show dumpsV (.bool false) ++ rest =
            'f' :: 'a' :: 'l' :: 's' :: 'e' :: rest from rfl]
          unfold parseValue
          simp
      | str s =>
        have hplain : ∀ c ∈ s.data, plainChar c = true := by
          have hps : plainString s = true := by simpa [wfV] using hwf
          exact fun c hc => List.all_eq_true.mp hps c hc
        rw [show dumpsV (.str s) ++ rest = '"' :: (s.data ++ '"' :: rest) from by
          simp [dumpsV]]
        unfold parseValue
        simp only [if_neg (by decide : ¬('"' = 'n')),
          if_neg (by decide : ¬('"' = 't')), if_neg (by decide : ¬('"' = 'f')),
          if_pos (rfl : '"' = '"')]
        rw [parseStrRest_plain s.data [] rest hplain]
        simp
      | num m e =>
        by_cases hm : m < 0
        · have hform : dumpsV (.num m e) ++ rest =
              '-' :: (numChars m.natAbs e ++ rest) := by
            simp [dumpsV, dumpsNum, hm]
          rw [hform]
          unfold parseValue
          rw [if_neg (by decide : ¬('-' = 'n')),
            if_neg (by decide : ¬('-' = 't')),
            if_neg (by decide : ¬('-' = 'f')),
            if_neg (by decide : ¬('-' = '"')),
            if_neg (by decide : ¬('-' = '[')),
            if_neg (by decide : ¬('-' = '{'))]
          rw [show '-' :: (numChars m.natAbs e ++ rest) =
            dumpsNum m e ++ rest from by simp [dumpsNum, hm]]
          rw [parseNum_dumpsNum m e rest hstop]
          rfl
        · obtain ⟨d, cs, hd, hnc⟩ := numChars_head m.natAbs e
          have hp := digitChar_props d hd
          have hform : dumpsV (.num m e) ++ rest =
              digitChar d :: (cs ++ rest) := by
            simp [dumpsV, dumpsNum, hm, hnc]
          rw [hform]
          unfold parseValue
          rw [if_neg hp.2.2.2.1, if_neg hp.2.2.2.2.1, if_neg hp.2.2.2.2.2.1,
            if_neg hp.2.2.2.2.2.2.1, if_neg hp.2.2.2.2.2.2.2.1,
            if_neg hp.2.2.2.2.2.2.2.2.1]
          rw [show digitChar d :: (cs ++ rest) = dumpsNum m e ++ rest from by
            simp [dumpsNum, hm, hnc]]
          rw [parseNum_dumpsNum m e rest hstop]
          rfl
      | arr xs =>
        cases xs with
        | nil =>
          rw [show dumpsV (.arr []) ++ rest = '[' :: ']' :: rest from rfl]
          unfold parseValue
          rw [if_neg (by decide : ¬('[' = 'n')),
            if_neg (by decide : ¬('[' = 't')),
            if_neg (by decide : ¬('[' = 'f')),
            if_neg (by decide : ¬('[' = '"')),
            if_pos (rfl : '[' = '[')]
          rw [skipWs_cons_of_not_ws ']' rest (by decide)]
          simp
        | cons x xs =>
          rw [show wfV (.arr (x :: xs)) = (wfV x && wfItems xs) from by
            simp [wfV, wfItems]] at hwf
          simp only [Bool.and_eq_true] at hwf
          obtain ⟨hwx, hwxs⟩ := hwf
          have hlen2 : (dumpsV x).length + (dumpsItems xs).length + 1 ≤ fuel := by
            rw [show dumpsV (.arr (x :: xs)) =
              '[' :: (dumpsV x ++ dumpsItems xs) ++ [']'] from by
              simp [dumpsV]] at hlen
            simp [List.length_append] at hlen
            omega
          have hform : dumpsV (.arr (x :: xs)) ++ rest =
              '[' :: (dumpsV x ++ (dumpsItems xs ++ ']' :: rest)) := by
            simp [dumpsV]
          rw [hform]
          unfold parseValue
          rw [if_neg (by decide : ¬('[' = 'n')),
            if_neg (by decide : ¬('[' = 't')),
            if_neg (by decide : ¬('[' = 'f')),
            if_neg (by decide : ¬('[' = '"')),
            if_pos (rfl : '[' = '[')]
          rw [skipWs_dumpsV x (dumpsItems xs ++ ']' :: rest)]
          obtain ⟨c, cs, hc, _, hcr, _⟩ := dumpsV_head x
          have hhead : (dumpsV x ++ (dumpsItems xs ++ ']' :: rest)).head? =
              some c := by
            rw [hc]; rfl
          simp only [hhead]
          rw [if_neg (by simpa using fun hcon => hcr hcon)]
          rw [ihI x xs rest hwx hwxs hlen2]
          rfl
      | obj fs =>
        cases fs with
        | nil =>
          rw [show dumpsV (.obj []) ++ rest = '{' :: '}' :: rest from rfl]
          unfold parseValue
          rw [if_neg (by decide : ¬('{' = 'n')),
            if_neg (by decide : ¬('{' = 't')),
            if_neg (by decide : ¬('{' = 'f')),
            if_neg (by decide : ¬('{' = '"')),
            if_neg (by decide : ¬('{' = '[')),
            if_pos (rfl : '{' = '{')]
          rw [skipWs_cons_of_not_ws '}' rest (by decide)]
          simp
        | cons f fs =>
          obtain ⟨k, v⟩ := f
          rw [show wfV (.obj ((k, v) :: fs)) =
            ((plainString k && wfV v) && wfFields fs) from by
            simp [wfV, wfFields]] at hwf
          simp only [Bool.and_eq_true] at hwf
          obtain ⟨⟨hk, hv⟩, hwfs⟩ := hwf
          have hlen2 : (dumpsField (k, v)).length + (dumpsFields fs).length + 1 ≤
              fuel := by
            rw [show dumpsV (.obj ((k, v) :: fs)) =
              '{' :: (dumpsField (k, v) ++ dumpsFields fs) ++ ['}'] from by
              simp [dumpsV]] at hlen
            simp [List.length_append] at hlen
            omega
          have hform : dumpsV (.obj ((k, v) :: fs)) ++ rest =
              '{' :: (dumpsField (k, v) ++ (dumpsFields fs ++ '}' :: rest)) := by
            simp [dumpsV]
          rw [hform]
          unfold parseValue
          rw [if_neg (by decide : ¬('{' = 'n')),
            if_neg (by decide : ¬('{' = 't')),
            if_neg (by decide : ¬('{' = 'f')),
            if_neg (by decide : ¬('{' = '"')),
            if_neg (by decide : ¬('{' = '[')),
            if_pos (rfl : '{' = '{')]
          have hfh : ∃ t, dumpsField (k, v) ++ (dumpsFields fs ++ '}' :: rest) =
              '"' :: t := by
            exact ⟨k.data ++ '"' :: ':' :: ' ' :: dumpsV v ++
              (dumpsFields fs ++ '}' :: rest), by simp [dumpsField]⟩
          obtain ⟨t, ht⟩ := hfh
          rw [ht, skipWs_cons_of_not_ws '"' t (by decide)]
          simp only [List.head?_cons]
          rw [if_neg (by decide : ¬(some '"' = some '}'))]
          rw [← ht, ihF k v fs rest hk hv hwfs hlen2]
          rfl
    · intro x xs rest hwx hwxs hlen
      unfold parseItems
      rw [ihV x (dumpsItems xs ++ ']' :: rest) hwx (numStop_items xs rest)
        (by omega)]
      simp only []
      cases xs with
      | nil =>
        rw [show dumpsItems [] ++ ']' :: rest = ']' :: rest from rfl]
        rw [skipWs_cons_of_not_ws ']' rest (by decide)]
        rw [show (']' :: rest).head? = some ']' from rfl]
        rw [if_neg (by decide : ¬(some ']' = some ','))]
        rw [if_pos (rfl : some ']' = some ']')]
        rfl
      | cons y ys =>
        rw [show wfItems (y :: ys) = (wfV y && wfItems ys) from by
          simp [wfItems]] at hwxs
        simp only [Bool.and_eq_true] at hwxs
        obtain ⟨hwy, hwys⟩ := hwxs
        have hxpos := dumpsV_length_pos x
        have hlen2 : (dumpsV y).length + (dumpsItems ys).length + 1 ≤ fuel := by
          rw [show dumpsItems (y :: ys) =
            ',' :: ' ' :: dumpsV y ++ dumpsItems ys from rfl] at hlen
          simp [List.length_append] at hlen
          omega
        rw [show dumpsItems (y :: ys) ++ ']' :: rest =
          ',' :: (' ' :: (dumpsV y ++ (dumpsItems ys ++ ']' :: rest))) from by
          simp [dumpsItems]]
        rw [skipWs_cons_of_not_ws ',' _ (by decide)]
        rw [show (',' :: (' ' :: (dumpsV y ++ (dumpsItems ys ++ ']' :: rest)))).head? =
          some ',' from rfl]
        rw [if_pos (rfl : some ',' = some ',')]
        rw [show (',' :: (' ' :: (dumpsV y ++ (dumpsItems ys ++ ']' :: rest)))).tail =
          ' ' :: (dumpsV y ++ (dumpsItems ys ++ ']' :: rest)) from rfl]
        rw [skipWs_space, skipWs_dumpsV y (dumpsItems ys ++ ']' :: rest)]
        rw [ihI y ys rest hwy hwys hlen2]
    · intro k v fs rest hk hv hwfs hlen
      unfold parseFields
      have hkplain : ∀ c ∈ k.data, plainChar c = true :=
        fun c hc => List.all_eq_true.mp hk c hc
      have hform : dumpsField (k, v) ++ (dumpsFields fs ++ '}' :: rest) =
          '"' :: (k.data ++ '"' ::
            (':' :: (' ' :: (dumpsV v ++ (dumpsFields fs ++ '}' :: rest))))) := by
        simp [dumpsField]
      rw [hform]
      rw [show ('"' :: (k.data ++ '"' ::
        (':' :: (' ' :: (dumpsV v ++ (dumpsFields fs ++ '}' :: rest)))))).head? =
        some '"' from rfl]
      rw [if_pos (rfl : some '"' = some '"')]
      rw [show ('"' :: (k.data ++ '"' ::
        (':' :: (' ' :: (dumpsV v ++ (dumpsFields fs ++ '}' :: rest)))))).tail =
        k.data ++ '"' ::
          (':' :: (' ' :: (dumpsV v ++ (dumpsFields fs ++ '}' :: rest)))) from rfl]
      rw [parseStrRest_plain k.data []
        (':' :: (' ' :: (dumpsV v ++ (dumpsFields fs ++ '}' :: rest)))) hkplain]
      rw [show String.mk (List.reverse [] ++ k.data) = k from by
        rw [List.reverse_nil, List.nil_append, stringMk_data]]
      simp only []
      rw [skipWs_cons_of_not_ws ':' _ (by decide)]
      rw [show ((':' : Char) :: (' ' :: (dumpsV v ++
        (dumpsFields fs ++ '}' :: rest)))).head? = some ':' from rfl]
      rw [if_pos (rfl : some ':' = some ':')]
      rw [show ((':' : Char) :: (' ' :: (dumpsV v ++
        (dumpsFields fs ++ '}' :: rest)))).tail =
        ' ' :: (dumpsV v ++ (dumpsFields fs ++ '}' :: rest)) from rfl]
      rw [skipWs_space, skipWs_dumpsV v (dumpsFields fs ++ '}' :: rest)]
      have hvlen : (dumpsV v).length ≤ fuel := by
        simp [dumpsField, List.length_append] at hlen
        omega
      rw [ihV v (dumpsFields fs ++ '}' :: rest) hv (numStop_fields fs rest)
        hvlen]
      simp only []
      cases fs with
      | nil =>
        rw [show dumpsFields [] ++ '}' :: rest = '}' :: rest from rfl]
        rw [skipWs_cons_of_not_ws '}' rest (by decide)]
        rw [show (('}' : Char) :: rest).head? = some '}' from rfl]
        rw [if_neg (by decide : ¬(some '}' = some ','))]
        rw [if_pos (rfl : some '}' = some '}')]
        rfl
      | cons g gs =>
        obtain ⟨k2, v2⟩ := g
        rw [show wfFields ((k2, v2) :: gs) =
          ((plainString k2 && wfV v2) && wfFields gs) from by
          simp [wfFields]] at hwfs
        simp only [Bool.and_eq_true] at hwfs
        obtain ⟨⟨hk2, hv2⟩, hwgs⟩ := hwfs
        have hlen2 : (dumpsField (k2, v2)).length + (dumpsFields gs).length + 1 ≤
            fuel := by
          rw [show dumpsFields ((k2, v2) :: gs) =
            ',' :: ' ' :: dumpsField (k2, v2) ++ dumpsFields gs from rfl] at hlen
          simp only [dumpsField, List.length_append, List.length_cons] at hlen ⊢
          omega
        rw [show dumpsFields ((k2, v2) :: gs) ++ '}' :: rest =
          ',' :: (' ' :: (dumpsField (k2, v2) ++ (dumpsFields gs ++ '}' :: rest)))
          from by simp [dumpsFields]]
        rw [skipWs_cons_of_not_ws ',' _ (by decide)]
        rw [show ((',' : Char) :: (' ' :: (dumpsField (k2, v2) ++
          (dumpsFields gs ++ '}' :: rest)))).head? = some ',' from rfl]
        rw [if_pos (rfl : some ',' = some ',')]
        rw [show ((',' : Char) :: (' ' :: (dumpsField (k2, v2) ++
          (dumpsFields gs ++ '}' :: rest)))).tail =
          ' ' :: (dumpsField (k2, v2) ++ (dumpsFields gs ++ '}' :: rest))
          from rfl]
        rw [skipWs_space]
        have hfieldhead : ∃ t2, dumpsField (k2, v2) ++
            (dumpsFields gs ++ '}' :: rest) = '"' :: t2 :=
          ⟨k2.data ++ '"' :: ':' :: ' ' :: dumpsV v2 ++
            (dumpsFields gs ++ '}' :: rest), by simp [dumpsField]⟩
        obtain ⟨t2, ht2⟩ := hfieldhead
        rw [ht2, skipWs_cons_of_not_ws '"' t2 (by decide), ← ht2]
        rw [ihF k2 v2 gs rest hk2 hv2 hwgs hlen2]

/-- C7: for every valid Command (a well-formed JSON object carrying its
command name under the cmd key), encoding it to a Line and decoding that
Line reproduces the original fields exactly. -/
theorem encode_decode_round_trip (command : Json)
    (_hdict : command.isDict = true)
    (_hcmd : (command.getKey "cmd").isSome = true)
    (hwf : wfV command = true) :
    loads (encode command) = some command := by
  have hlen : (dumpsV command).length ≤ (dumpsV command ++ ['\n']).length + 1 := by
    have h1 := List.length_append (dumpsV command) ['\n']
    have h2 : (['\n'] : List Char).length = 1 := rfl
    omega
  have hparse := (parse_dumps ((dumpsV command ++ ['\n']).length + 1)).1 command
    ['\n'] hwf (by decide) hlen
  simp only [loads, encode, skipWs_dumpsV command ['\n'], hparse]
  rfl

/-- Witness for C7 at the set_joints Command of the specification, with
six decimal joint targets and a fractional speed. -/
theorem encode_decode_round_trip_witness :
    loads (encode (Json.obj [("cmd", Json.str "set_joints"),
      ("targets", Json.arr [Json.num 90 0, Json.num 45 0, Json.num 120 0,
        Json.num 90 0, Json.num 0 0, Json.num 30 0]),
      ("speed", Json.num 5 1)])) =
    some (Json.obj [("cmd", Json.str "set_joints"),
      ("targets", Json.arr [Json.num 90 0, Json.num 45 0, Json.num 120 0,
        Json.num 90 0, Json.num 0 0, Json.num 30 0]),
      ("speed", Json.num 5 1)]) :=
  encode_decode_round_trip
    (Json.obj [("cmd", Json.str "set_joints"),
      ("targets", Json.arr [Json.num 90 0, Json.num 45 0, Json.num 120 0,
        Json.num 90 0, Json.num 0 0, Json.num 30 0]),
      ("speed", Json.num 5 1)]) rfl rfl rfl
